import Mathlib

/-!
Verification development for the RaceIQ race-telemetry analytics repository.

Shallow embedding conventions:
* A pandas `DataFrame` of timing rows is a `List TRow`; a sheet that could not
  be read (or that lacks a required column) is `none : Option (List TRow)`,
  mirroring `read_sheet` returning `None` and the early column-presence checks
  in `compute_lap_time_from_timestamps`.
* A cell that failed numeric / datetime coercion (`pd.to_numeric(errors="coerce")`,
  `to_dt`) is `none`; present values are `some`.  Timestamps and durations are
  rationals (seconds), lap numbers are integers (the `Int64` cast).
* pandas' stable multi-key `sort_values` is modelled by `List.insertionSort`
  (also stable) with the corresponding lexicographic comparator.
* `drop_duplicates(subset=keys, keep="last")` is `keepLastByKey`: an element is
  kept iff no later element shares its key, preserving order of kept elements.
-/

/-- A raw timing row (end-log or time-log sheet) after the column coercions of
`compute_lap_time_from_timestamps`: `vehicle_id` cast to string, `lap` through
`pd.to_numeric(errors="coerce").astype("Int64")`, the chosen timestamp column
through `to_dt`. -/
structure TRow where
  vid : String
  lap : Option Int
  ts : Option ℚ
deriving DecidableEq, Repr

/-- A lap record: one row of the frame returned by
`compute_lap_time_from_timestamps` / `build_laps`
(`vehicle_id`, `lap`, `lap_time_s`). -/
structure LRow where
  vid : String
  lap : Option Int
  lap_time_s : Option ℚ
deriving DecidableEq, Repr

/-- Strict order on nullable lap numbers: pandas sorts `NaN`/`NA` last
(`na_position="last"`). -/
def lapLT : Option Int → Option Int → Prop
  | some x, some y => x < y
  | some _, none => True
  | none, some _ => False
  | none, none => False

instance : DecidableRel lapLT := fun a b =>
  match a, b with
  | some x, some y => inferInstanceAs (Decidable (x < y))
  | some _, none => inferInstanceAs (Decidable True)
  | none, some _ => inferInstanceAs (Decidable False)
  | none, none => inferInstanceAs (Decidable False)

/-- Non-strict version of `lapLT`. -/
def lapLE (a b : Option Int) : Prop := lapLT a b ∨ a = b

instance : DecidableRel lapLE := fun _ _ => inferInstanceAs (Decidable (_ ∨ _))

/-- Order on nullable timestamps, `NaT` last. -/
def tsLE : Option ℚ → Option ℚ → Prop
  | some x, some y => x ≤ y
  | some _, none => True
  | none, some _ => False
  | none, none => True

instance : DecidableRel tsLE := fun a b =>
  match a, b with
  | some x, some y => inferInstanceAs (Decidable (x ≤ y))
  | some _, none => inferInstanceAs (Decidable True)
  | none, some _ => inferInstanceAs (Decidable False)
  | none, none => inferInstanceAs (Decidable True)

/-- Comparator of the per-vehicle `sort_values([lap_col, "__ts__"])` in
`compute_lap_time_from_timestamps.per_id`. -/
def byLapTs (a b : TRow) : Prop := lapLT a.lap b.lap ∨ (a.lap = b.lap ∧ tsLE a.ts b.ts)

instance : DecidableRel byLapTs := fun _ _ => inferInstanceAs (Decidable (_ ∨ _))

/-- Comparator of the final `sort_values([ID_COL, LAP_COL])` in `build_laps`. -/
def byVidLap (a b : LRow) : Prop := a.vid < b.vid ∨ (a.vid = b.vid ∧ lapLE a.lap b.lap)

instance : DecidableRel byVidLap := fun _ _ => inferInstanceAs (Decidable (_ ∨ _))

/-- `Series.diff()` on the timestamp column followed by `.dt.total_seconds()`:
entry `i` is `ts i - ts (i-1)` when both are present, `NaN` otherwise; `prev`
is the previous entry (`none` before the first row). -/
def diffColumn : Option ℚ → List (Option ℚ) → List (Option ℚ)
  | _, [] => []
  | prev, x :: xs =>
    (match prev, x with
     | some p, some c => some (c - p)
     | _, _ => none) :: diffColumn x xs

/-- The merge / dedup key `(vehicle_id, lap)` of a lap record. -/
def lkey (r : LRow) : String × Option Int := (r.vid, r.lap)

/-- `drop_duplicates(subset=keys, keep="last")`: keep an element iff no later
element has the same key; kept elements stay in order. -/
def keepLastByKey {α κ : Type} [DecidableEq κ] (key : α → κ) : List α → List α
  | [] => []
  | x :: xs =>
    if xs.any (fun y => key y = key x) then keepLastByKey key xs
    else x :: keepLastByKey key xs

/-- The per-vehicle `sort_values([lap_col, "__ts__"])` (stable, `NaN` last). -/
def sortGroup (rows : List TRow) : List TRow :=
  List.insertionSort byLapTs rows

/-- `per_id` of `compute_lap_time_from_timestamps`: sort one vehicle's rows by
`(lap, timestamp)` and diff the timestamps to get `lap_time_s`; the first row
of a vehicle gets no duration. -/
def per_id (rows : List TRow) : List LRow :=
  (sortGroup rows).zipWith (fun r t => ⟨r.vid, r.lap, t⟩)
    (diffColumn none ((sortGroup rows).map (·.ts)))

/-- The sorted distinct vehicle ids of a frame: `groupby(id_col)` visits groups
in ascending key order. -/
def sortedIds (rows : List TRow) : List String :=
  List.insertionSort (· ≤ ·) (rows.map (·.vid)).dedup

/-- `base.groupby(id_col, group_keys=False).apply(per_id)`: concatenation of the
per-vehicle results in ascending id order. -/
def grouped (rows : List TRow) : List LRow :=
  ((sortedIds rows).map (fun v => per_id (rows.filter (fun r => decide (r.vid = v))))).flatten

/-- `compute_lap_time_from_timestamps` (src/data_processing.py:70-117).
`none` input models `read_sheet` failure or a missing id / lap / timestamp
column (each of which short-circuits to the empty frame).  Otherwise: group by
vehicle, sort each group by `(lap, timestamp)`, diff timestamps, then
`drop_duplicates(subset=[id, lap], keep="last")`. -/
def compute_lap_time_from_timestamps (df : Option (List TRow)) : List LRow :=
  match df with
  | none => []
  | some rows => if rows = [] then [] else keepLastByKey lkey (grouped rows)

/-- The merged row an outer join produces for a left-side key `k`: the
matching right-side duration if the key exists on the right, a null duration
otherwise. -/
def mergeRow (right : List LRow) (k : String × Option Int) : LRow :=
  match right.find? (fun r => decide (lkey r = k)) with
  | some r => ⟨k.1, k.2, r.lap_time_s⟩
  | none => ⟨k.1, k.2, none⟩

/-- The outer merge of `build_laps`: the end-log skeleton contributes only its
`(vehicle_id, lap)` keys (`end_laps[[ID_COL, LAP_COL]]`), so every duration in
the merged frame comes from the time-log side; end-log keys missing from the
time-log get a null duration, and unmatched time-log rows are appended.
(pandas orders an outer merge by sorted keys; `build_laps` re-sorts the result
anyway, so row order here is unobservable.) -/
def outerMerge (left : List (String × Option Int)) (right : List LRow) : List LRow :=
  left.map (mergeRow right) ++ right.filter (fun r => decide (¬ lkey r ∈ left))

instance : IsTotal LRow byVidLap where
  total a b := by
    rcases lt_trichotomy a.vid b.vid with h | h | h
    · exact Or.inl (Or.inl h)
    · have hlap : lapLE a.lap b.lap ∨ lapLE b.lap a.lap := by
        unfold lapLE lapLT
        rcases a.lap with _ | x <;> rcases b.lap with _ | y <;> simp <;> omega
      rcases hlap with hl | hl
      · exact Or.inl (Or.inr ⟨h, hl⟩)
      · exact Or.inr (Or.inr ⟨h.symm, hl⟩)
    · exact Or.inr (Or.inl h)

instance : IsTrans LRow byVidLap where
  trans a b c hab hbc := by
    obtain ⟨av, al, ats⟩ := a
    obtain ⟨bv, bl, bts⟩ := b
    obtain ⟨cv, cl, cts⟩ := c
    unfold byVidLap lapLE lapLT at hab hbc ⊢
    dsimp only at hab hbc ⊢
    rcases hab with h1 | ⟨h1, h1'⟩ <;> rcases hbc with h2 | ⟨h2, h2'⟩
    · exact Or.inl (h1.trans h2)
    · exact Or.inl (h2 ▸ h1)
    · exact Or.inl (h1 ▸ h2)
    · refine Or.inr ⟨h1.trans h2, ?_⟩
      rcases al with _ | x <;> rcases bl with _ | y <;>
        rcases cl with _ | z <;> simp_all <;> omega

/-- Lines 146-154 of src/data_processing.py: outer-merge the time-log laps
onto the end-log keys when the time-log result is non-empty, otherwise keep
the end-log result alone. -/
def mergedLaps (end_laps time_laps : List LRow) : List LRow :=
  if time_laps ≠ [] then outerMerge (end_laps.map lkey) time_laps else end_laps

/-- Lines 156-161 of src/data_processing.py: drop rows whose lap failed
numeric parse (`dropna(subset=[LAP_COL])`) and sort by `(vehicle_id, lap)`.
(The re-casts of `vehicle_id`/`lap` on lines 157-158 are identities here since
the columns are already typed.) -/
def finalizeLaps (merged : List LRow) : List LRow :=
  if merged = [] then merged
  else List.insertionSort byVidLap (merged.filter (fun r => decide (r.lap ≠ none)))

/-- `build_laps` (src/data_processing.py:120-161): reconstruct laps from the
end-log and the time-log sheets, merge, drop null laps, sort. -/
def build_laps (end_df time_df : Option (List TRow)) : List LRow :=
  finalizeLaps (mergedLaps (compute_lap_time_from_timestamps end_df)
    (compute_lap_time_from_timestamps time_df))

/-- Lookup of the `lap_time_s` value recorded for a `(vehicle_id, lap)` pair in
a lap frame: `some v` when a row with that key exists and carries duration `v`
(`v = none` meaning a null duration), `none` when no such row exists. -/
def lookupLap (rows : List LRow) (v : String) (l : Int) : Option (Option ℚ) :=
  (rows.find? (fun r => decide (lkey r = (v, some l)))).map (·.lap_time_s)

/-! ## Derived-metric estimators (src/data_processing.py:164-191) -/

/-- The non-null values of a nullable column, in order (pandas skips `NaN` when
aggregating). -/
def validVals (l : List (Option ℚ)) : List ℚ := l.filterMap id

/-- The window pandas `rolling(window)` considers at position `i`: entries
`max (i+1-window) 0 .. i`. -/
def windowAt (w : Nat) (x : List (Option ℚ)) (i : Nat) : List (Option ℚ) :=
  (x.take (i + 1)).drop (i + 1 - w)

/-- pandas' median of a sample: middle order statistic for odd length, mean of
the two middle order statistics for even length. -/
def median (l : List ℚ) : ℚ :=
  if l.length % 2 = 1 then (List.insertionSort (· ≤ ·) l).getD (l.length / 2) 0
  else ((List.insertionSort (· ≤ ·) l).getD (l.length / 2 - 1) 0 +
    (List.insertionSort (· ≤ ·) l).getD (l.length / 2) 0) / 2

/-- `Series.rolling(window, min_periods=minp).<f>()`: at each position apply
`f` to the non-null entries of the window, yielding null when fewer than
`minp` of them exist. -/
def rollingApply (w minp : Nat) (f : List ℚ → ℚ) (x : List (Option ℚ)) :
    List (Option ℚ) :=
  (List.range x.length).map fun i =>
    let v := validVals (windowAt w x i)
    if minp ≤ v.length then some (f v) else none

/-- One entry of `(x - med).abs()`: null when either operand is null. -/
def subAbs (a m : Option ℚ) : Option ℚ :=
  match a, m with
  | some p, some q => some |p - q|
  | _, _ => none

/-- `rolling_consistency` (src/data_processing.py:164-177): rolling median,
absolute deviation from it, rolling median of that, scaled by 1.4826; both
rollings use `min_periods=3`. -/
def rolling_consistency (window : Nat) (x : List (Option ℚ)) : List (Option ℚ) :=
  (rollingApply window 3 median
    (List.zipWith subAbs x (rollingApply window 3 median x))).map
    (Option.map (fun m => (14826 / 10000 : ℚ) * m))

/-- `best_lap` (src/data_processing.py:180-191): `np.nanmin` of the
`lap_time_s` column when the frame has rows (`NaN`, i.e. `none`, when all
entries are null), `NaN` for an empty frame. -/
def best_lap (df : List LRow) : Option ℚ :=
  if (df.map (·.lap_time_s)).length ≠ 0 then (validVals (df.map (·.lap_time_s))).min?
  else none

/-! ## Telemetry aggregation and metric extraction
(src/preprocess_telemetry.py, src/telemetry.py) -/

/-- A raw long-format telemetry sample after the per-chunk coercions
(`pd.to_numeric(chunk['telemetry_value'], errors='coerce')`): `value = none`
models an unparseable sample.  The `timestamp` column is coerced and carried
along with `'first'` aggregation in the source but discarded by the final
pivot (`values='telemetry_value'`), so it is unobservable in every output this
development reasons about and is omitted from the row model. -/
structure TelRow where
  vid : String
  lap : Int
  name : String
  value : Option ℚ
deriving DecidableEq, Repr

/-- The `(vehicle_id, lap, telemetry_name)` group key. -/
def key3 (r : TelRow) : String × Int × String := (r.vid, r.lap, r.name)

/-- The `(vehicle_id, lap)` pivot index key. -/
def key2 (r : TelRow) : String × Int := (r.vid, r.lap)

/-- pandas `mean` aggregation of a nullable column: skip nulls, null when no
non-null value exists. -/
def meanOpt (vals : List (Option ℚ)) : Option ℚ :=
  if validVals vals = [] then none
  else some ((validVals vals).sum / ((validVals vals).length : ℚ))

/-- Ascending order on `(vehicle_id, lap)` keys (groupby / pivot sort their
keys). -/
def lexSI (a b : String × Int) : Prop := a.1 < b.1 ∨ (a.1 = b.1 ∧ a.2 ≤ b.2)

instance : DecidableRel lexSI := fun _ _ => inferInstanceAs (Decidable (_ ∨ _))

/-- Ascending order on `(vehicle_id, lap, telemetry_name)` keys. -/
def lexSIS (a b : String × Int × String) : Prop :=
  a.1 < b.1 ∨ (a.1 = b.1 ∧ (a.2.1 < b.2.1 ∨ (a.2.1 = b.2.1 ∧ a.2.2 ≤ b.2.2)))

instance : DecidableRel lexSIS := fun _ _ => inferInstanceAs (Decidable (_ ∨ _))

/-- `groupby([ID_COL, LAP_COL, 'telemetry_name']).agg({'telemetry_value':
'mean'})` (src/preprocess_telemetry.py:97-100 and 115-118): one row per
distinct key, in ascending key order, holding the mean of the group's
non-null values. -/
def groupMeanLong (rows : List TelRow) : List TelRow :=
  (List.insertionSort lexSIS (rows.map key3).dedup).map fun k =>
    ⟨k.1, k.2.1, k.2.2,
      meanOpt ((rows.filter (fun r => decide (key3 r = k))).map (·.value))⟩

/-- One row of a wide / pivoted telemetry table: the two key columns plus one
cell per telemetry channel column. -/
structure WideRow where
  vid : String
  lap : Int
  cells : List (String × Option ℚ)
deriving DecidableEq, Repr

/-- A wide telemetry table: the channel column labels plus the rows
(`vehicle_id` and `lap` are carried structurally). -/
structure WideTable where
  cols : List String
  rows : List WideRow
deriving DecidableEq, Repr

/-- The channel columns of the pivot, ascending; `pivot_table`'s default
`dropna=True` omits channels all of whose values are null. -/
def pivotChannels (rows : List TelRow) : List String :=
  List.insertionSort (· ≤ ·)
    (((rows.filter (fun r => decide (r.value ≠ none))).map (·.name)).dedup)

/-- The distinct `(vehicle_id, lap)` index keys of the pivot, ascending. -/
def pivotKeys (rows : List TelRow) : List (String × Int) :=
  List.insertionSort lexSI ((rows.map key2).dedup)

/-- One pivot cell: mean of the non-null values for `(key, channel)`. -/
def pivotCell (rows : List TelRow) (k : String × Int) (c : String) : Option ℚ :=
  meanOpt ((rows.filter (fun r => decide (key2 r = k ∧ r.name = c))).map (·.value))

/-- `pivot_table(index=[ID_COL, LAP_COL], columns='telemetry_name',
values='telemetry_value', aggfunc='mean').reset_index()`: one row per distinct
`(vehicle_id, lap)` in ascending order, one column per channel in ascending
order; a cell is the mean of the matching non-null values. -/
def pivotMean (rows : List TelRow) : WideTable :=
  ⟨pivotChannels rows,
    (pivotKeys rows).map fun k =>
      ⟨k.1, k.2, (pivotChannels rows).map fun c => (c, pivotCell rows k c)⟩⟩

/-- The aggregation pipeline of `aggregate_telemetry_file`
(src/preprocess_telemetry.py:72-128), I/O aside: per-chunk groupby-mean over
the `CHUNK_SIZE`-row chunks of the CSV, concatenation, a second groupby-mean
over the combined per-chunk aggregates, then the wide pivot that is persisted.
The chunk decomposition of the input stream is the `chunks` parameter. -/
def aggregateChunks (chunks : List (List TelRow)) : WideTable :=
  pivotMean (groupMeanLong ((chunks.map groupMeanLong).flatten))

/-- The two storage formats `process_telemetry` accepts: raw long format (CSV)
or an already-pivoted wide table (aggregated Parquet).  The source
discriminates by presence of the `telemetry_name`/`telemetry_value` columns;
the constructor plays that role here. -/
inductive Tel where
  | long (rows : List TelRow)
  | wide (t : WideTable)
deriving DecidableEq

/-- Vehicle filter then lap-range filter on long-format rows
(src/telemetry.py:131-140). -/
def filterTel (rows : List TelRow) (vehicle_id : Option String)
    (lap_range : Option (Int × Int)) : List TelRow :=
  let r1 := match vehicle_id with
    | none => rows
    | some s => rows.filter (fun r => decide (r.vid = s))
  match lap_range with
  | none => r1
  | some (lo, hi) => r1.filter (fun r => decide (lo ≤ r.lap ∧ r.lap ≤ hi))

/-- Vehicle filter then lap-range filter on wide rows
(src/telemetry.py:112-121). -/
def filterWide (rows : List WideRow) (vehicle_id : Option String)
    (lap_range : Option (Int × Int)) : List WideRow :=
  let r1 := match vehicle_id with
    | none => rows
    | some s => rows.filter (fun r => decide (r.vid = s))
  match lap_range with
  | none => r1
  | some (lo, hi) => r1.filter (fun r => decide (lo ≤ r.lap ∧ r.lap ≤ hi))

/-- A metric series: `telemetry_pivot.set_index([ID_COL, LAP_COL])[col]` —
the chosen column indexed by `(vehicle_id, lap)`. -/
def setIndexCol (t : WideTable) (c : String) : List ((String × Int) × Option ℚ) :=
  t.rows.map fun r => ((r.vid, r.lap), ((r.cells.lookup c).getD none))

/-- Case-insensitive substring test used for the brake-pressure column pattern
(`'pbrake' in str(c).lower()`). -/
def strContainsLower (hay needle : String) : Bool :=
  let h := hay.toLower.toList
  let n := needle.toList
  (List.range (h.length + 1)).any fun i => n.isPrefixOf (h.drop i)

/-- One conditional entry of the metrics dict: `{metric: pivot[col]}` if the
source column exists, nothing otherwise. -/
def metricBlock (t : WideTable) (col metric : String) :
    List (String × List ((String × Int) × Option ℚ)) :=
  if col ∈ t.cols then [(metric, setIndexCol t col)] else []

/-- The metrics dict of `process_telemetry` (src/telemetry.py:156-183), in the
source's insertion order; `brake_usage` takes the first column matching the
`pbrake` pattern. -/
def extractMetrics (t : WideTable) :
    List (String × List ((String × Int) × Option ℚ)) :=
  metricBlock t "speed" "speed" ++
  metricBlock t "aps" "fuel_usage" ++
  (match t.cols.filter (fun c => strContainsLower c "pbrake") with
   | [] => []
   | b :: _ => [("brake_usage", setIndexCol t b)]) ++
  metricBlock t "accx_can" "acceleration" ++
  metricBlock t "gear" "gear" ++
  metricBlock t "nmot" "rpm"

/-- The empty result `({}, pd.DataFrame())`. -/
def emptyTel : List (String × List ((String × Int) × Option ℚ)) × WideTable :=
  ([], ⟨[], []⟩)

/-- `process_telemetry` (src/telemetry.py:83-183): empty input yields the
empty result; otherwise filter by vehicle and lap range (in either storage
format), yield the empty result if nothing survives, pivot if the input was
long, and extract the metrics dict from whichever wide columns are present.
(The `try/except` around `pivot_table` is dead in this model, where
`pivot_table` is total.) -/
def process_telemetry (t : Tel) (vehicle_id : Option String)
    (lap_range : Option (Int × Int)) :
    List (String × List ((String × Int) × Option ℚ)) × WideTable :=
  match t with
  | .long rows =>
    if rows = [] then emptyTel
    else if filterTel rows vehicle_id lap_range = [] then emptyTel
    else (extractMetrics (pivotMean (filterTel rows vehicle_id lap_range)),
      pivotMean (filterTel rows vehicle_id lap_range))
  | .wide w =>
    if w.rows = [] then emptyTel
    else if filterWide w.rows vehicle_id lap_range = [] then emptyTel
    else (extractMetrics ⟨w.cols, filterWide w.rows vehicle_id lap_range⟩,
      ⟨w.cols, filterWide w.rows vehicle_id lap_range⟩)

/-- Cell lookup in a wide table: the channel `c` value recorded for
`(vehicle_id, lap)`; `none` when the row or column is absent or the cell is
null. -/
def lookupWide (t : WideTable) (v : String) (l : Int) (c : String) : Option ℚ :=
  (t.rows.find? (fun r => decide ((r.vid, r.lap) = (v, l)))).bind
    (fun r => (r.cells.lookup c).getD none)

/-- Lookup of the aggregated value recorded for a full
`(vehicle_id, lap, channel)` key in a long-format frame: `some v` when a row
with that key exists and carries value `v`, `none` when no such row exists. -/
def lookup3 (rows : List TelRow) (k : String × Int × String) : Option (Option ℚ) :=
  (rows.find? (fun r => decide (key3 r = k))).map (·.value)

/-- "The input becomes empty after the vehicle / lap-range filters" — the
condition under which `process_telemetry` short-circuits to the empty result
(src/telemetry.py:123-124 and 142-143). -/
def filteredEmpty (t : Tel) (vehicle_id : Option String)
    (lap_range : Option (Int × Int)) : Prop :=
  match t with
  | .long rows => filterTel rows vehicle_id lap_range = []
  | .wide w => filterWide w.rows vehicle_id lap_range = []

/-- Value of a metric series at an index key. -/
def seriesAt (s : List ((String × Int) × Option ℚ)) (v : String) (l : Int) :
    Option ℚ :=
  (s.find? (fun e => decide (e.1 = (v, l)))).bind (·.2)

/-! ## Batch aggregator CLI exit behaviour (src/preprocess_telemetry.py) -/

/-- Outcome model of `aggregate_telemetry_file` (src/preprocess_telemetry.py:
53-154): `present` is `os.path.exists(input_path)`, `pipelineOk` is "the whole
read/parse/aggregate/write pipeline raises no exception".  A missing input
prints an error and returns normally without writing (lines 61-63); an
exception anywhere in the pipeline reaches `sys.exit(1)` (line 154); otherwise
the artifact is written and the function returns normally.  `.ok written`
reports whether the artifact was published; `.error ()` is `sys.exit(1)`. -/
def aggregate_telemetry_file (present pipelineOk : Bool) : Except Unit Bool :=
  if !present then .ok false
  else if pipelineOk then .ok true
  else .error ()

/-- Exit code of the aggregator CLI `main()`
(src/preprocess_telemetry.py:157-185): each race's input is skipped with a
warning when missing, otherwise processed; `sys.exit(1)` escapes, and falling
off the end exits 0. -/
def mainExitCode (present1 ok1 present2 ok2 : Bool) : Nat :=
  match (if present1 then aggregate_telemetry_file present1 ok1 else .ok false) with
  | .error _ => 1
  | .ok _ =>
    match (if present2 then aggregate_telemetry_file present2 ok2 else .ok false) with
    | .error _ => 1
    | .ok _ => 0

set_option maxRecDepth 100000

/-! ## General lemmas about the embedded operations -/

theorem keepLastByKey_sublist {α κ : Type} [DecidableEq κ] (key : α → κ)
    (l : List α) : List.Sublist (keepLastByKey key l) l := by
  induction l with
  | nil => exact List.Sublist.refl _
  | cons x xs ih =>
    rw [keepLastByKey]
    split
    · exact ih.cons x
    · exact ih.cons₂ x

theorem keepLastByKey_pairwise {α κ : Type} [DecidableEq κ] (key : α → κ)
    (l : List α) :
    (keepLastByKey key l).Pairwise (fun a b => key a ≠ key b) := by
  induction l with
  | nil => exact List.Pairwise.nil
  | cons x xs ih =>
    rw [keepLastByKey]
    split
    · exact ih
    · rename_i h
      refine List.Pairwise.cons (fun b hb hkb => ?_) ih
      have hbxs : b ∈ xs := (keepLastByKey_sublist key xs).subset hb
      exact h (List.any_eq_true.mpr ⟨b, hbxs, by simp [hkb]⟩)

theorem getLast?_cons_of_ne_nil {α : Type} {l : List α} (a : α) (h : l ≠ []) :
    (a :: l).getLast? = l.getLast? := by
  cases l with
  | nil => exact absurd rfl h
  | cons b m => exact List.getLast?_cons_cons

theorem filter_keepLastByKey {α κ : Type} [DecidableEq κ] (key : α → κ)
    (k : κ) (l : List α) :
    (keepLastByKey key l).filter (fun x => decide (key x = k)) =
      ((l.filter (fun x => decide (key x = k))).getLast?).toList := by
  induction l with
  | nil => rfl
  | cons x xs ih =>
    rw [keepLastByKey]
    by_cases hk : key x = k
    · by_cases hany : (xs.any fun y => decide (key y = key x)) = true
      · rw [if_pos hany, ih, List.filter_cons, if_pos (by simp [hk])]
        obtain ⟨y, hy, hky⟩ := List.any_eq_true.mp hany
        have hyk : key y = k := by rw [decide_eq_true_iff] at hky; rw [hky, hk]
        have hne : xs.filter (fun x => decide (key x = k)) ≠ [] :=
          List.ne_nil_of_mem (List.mem_filter.mpr ⟨hy, by simp [hyk]⟩)
        rw [getLast?_cons_of_ne_nil _ hne]
      · rw [if_neg hany, List.filter_cons, if_pos (by simp [hk]),
          List.filter_cons, if_pos (by simp [hk]), ih]
        have hnil : xs.filter (fun x => decide (key x = k)) = [] := by
          rw [List.filter_eq_nil_iff]
          intro y hy hky
          rw [decide_eq_true_iff] at hky
          exact hany (List.any_eq_true.mpr ⟨y, hy, by simp [hky, hk]⟩)
        rw [hnil]
        rfl
    · have hfx : decide (key x = k) = false := by simp [hk]
      split
      · rw [ih, List.filter_cons, hfx]
        simp only [Bool.false_eq_true, if_false]
      · rw [List.filter_cons, hfx, List.filter_cons, hfx]
        simp only [Bool.false_eq_true, if_false]
        exact ih

theorem find?_key_of_mem {α κ : Type} [DecidableEq κ] (key : α → κ)
    {l : List α} {a : α}
    (hp : l.Pairwise (fun x y => key x ≠ key y)) (ha : a ∈ l) :
    l.find? (fun x => decide (key x = key a)) = some a := by
  induction l with
  | nil => cases ha
  | cons x xs ih =>
    rcases List.mem_cons.mp ha with rfl | ha'
    · exact List.find?_cons_of_pos _ (by simp)
    · have hx : key x ≠ key a := (List.pairwise_cons.mp hp).1 a ha'
      rw [List.find?_cons_of_neg _ (by simp [hx])]
      exact ih (List.pairwise_cons.mp hp).2 ha'

theorem mem_key_unique {α κ : Type} (key : α → κ) {l : List α} {a b : α}
    (hp : l.Pairwise (fun x y => key x ≠ key y)) (ha : a ∈ l) (hb : b ∈ l)
    (hk : key a = key b) : a = b := by
  induction l with
  | nil => cases ha
  | cons x xs ih =>
    rcases List.mem_cons.mp ha with rfl | ha' <;>
      rcases List.mem_cons.mp hb with rfl | hb'
    · rfl
    · exact absurd hk ((List.pairwise_cons.mp hp).1 b hb')
    · exact absurd hk.symm ((List.pairwise_cons.mp hp).1 a ha')
    · exact ih (List.pairwise_cons.mp hp).2 ha' hb'

/-- Every result of `compute_lap_time_from_timestamps` has pairwise-distinct
`(vehicle_id, lap)` keys (the dedup step guarantees it). -/
theorem compute_pairwise (df : Option (List TRow)) :
    (compute_lap_time_from_timestamps df).Pairwise
      (fun a b => lkey a ≠ lkey b) := by
  cases df with
  | none => exact List.Pairwise.nil
  | some rows =>
    rw [compute_lap_time_from_timestamps]
    split
    · exact List.Pairwise.nil
    · exact keepLastByKey_pairwise lkey (grouped rows)

theorem lkey_mergeRow (right : List LRow) (k : String × Option Int) :
    lkey (mergeRow right k) = k := by
  unfold mergeRow
  split <;> rfl

theorem outerMerge_mem_left {left : List (String × Option Int)}
    {right : List LRow} {k : String × Option Int} {rt : LRow} (hk : k ∈ left)
    (hf : right.find? (fun r => decide (lkey r = k)) = some rt) :
    (⟨k.1, k.2, rt.lap_time_s⟩ : LRow) ∈ outerMerge left right := by
  refine List.mem_append_left _ (List.mem_map.mpr ⟨k, hk, ?_⟩)
  unfold mergeRow
  rw [hf]

theorem outerMerge_key_val {left : List (String × Option Int)}
    {right : List LRow} {k : String × Option Int} {rt : LRow} (hkl : k ∈ left)
    (hf : right.find? (fun r => decide (lkey r = k)) = some rt) :
    ∀ r ∈ outerMerge left right, lkey r = k → r.lap_time_s = rt.lap_time_s := by
  intro r hr hkey
  rcases List.mem_append.mp hr with hL | hR
  · obtain ⟨k', hk', hrk⟩ := List.mem_map.mp hL
    have hk'k : k' = k := by
      rw [← hrk, lkey_mergeRow] at hkey
      exact hkey
    subst hk'k
    rw [← hrk]
    unfold mergeRow
    rw [hf]
  · obtain ⟨hrr, hpred⟩ := List.mem_filter.mp hR
    rw [decide_eq_true_iff] at hpred
    exact absurd (show lkey r ∈ left by rw [hkey]; exact hkl) hpred

theorem outerMerge_pairwise {left : List (String × Option Int)}
    {right : List LRow} (hl : left.Nodup)
    (hr : right.Pairwise fun a b => lkey a ≠ lkey b) :
    (outerMerge left right).Pairwise fun a b => lkey a ≠ lkey b := by
  unfold outerMerge
  rw [List.pairwise_append]
  refine ⟨?_, hr.sublist (List.filter_sublist _), ?_⟩
  · rw [List.pairwise_map]
    exact hl.imp (fun hab => by rw [lkey_mergeRow, lkey_mergeRow]; exact hab)
  · intro a ha b hb
    obtain ⟨k', hk', hrk⟩ := List.mem_map.mp ha
    obtain ⟨hbr, hpred⟩ := List.mem_filter.mp hb
    rw [decide_eq_true_iff] at hpred
    rw [← hrk, lkey_mergeRow]
    intro hkb
    exact hpred (hkb ▸ hk')

/-- C1: for every vehicle_id/lap pair whose duration is computed by both the
end-log and the time-log reconstructions with differing values, `build_laps`
returns the time-log-derived duration for that pair: a record with that key
and the time-log value is in the output, and every output record with that key
carries the time-log value. -/
theorem C1_build_laps_time_log_wins (e t : Option (List TRow)) (v : String)
    (l : Int) (d1 d2 : ℚ)
    (h1 : lookupLap (compute_lap_time_from_timestamps e) v l = some (some d1))
    (h2 : lookupLap (compute_lap_time_from_timestamps t) v l = some (some d2))
    (hne : d1 ≠ d2) :
    (∃ r ∈ build_laps e t, lkey r = (v, some l) ∧ r.lap_time_s = some d2) ∧
      ∀ r ∈ build_laps e t, lkey r = (v, some l) → r.lap_time_s = some d2 := by
  rw [lookupLap, Option.map_eq_some'] at h1 h2
  obtain ⟨re, hfe, hve⟩ := h1
  obtain ⟨rt, hft, hvt⟩ := h2
  have hre_mem := List.mem_of_find?_eq_some hfe
  have hrt_mem := List.mem_of_find?_eq_some hft
  have hke : lkey re = (v, some l) := by
    have := List.find?_some hfe
    rwa [decide_eq_true_iff] at this
  have htne : compute_lap_time_from_timestamps t ≠ [] :=
    List.ne_nil_of_mem hrt_mem
  have hkinleft : (v, some l) ∈ (compute_lap_time_from_timestamps e).map lkey :=
    List.mem_map.mpr ⟨re, hre_mem, hke⟩
  have hEx : (⟨v, some l, rt.lap_time_s⟩ : LRow) ∈
      outerMerge ((compute_lap_time_from_timestamps e).map lkey)
        (compute_lap_time_from_timestamps t) :=
    outerMerge_mem_left hkinleft hft
  have hmne : outerMerge ((compute_lap_time_from_timestamps e).map lkey)
      (compute_lap_time_from_timestamps t) ≠ [] := List.ne_nil_of_mem hEx
  have hbuild : build_laps e t = List.insertionSort byVidLap
      ((outerMerge ((compute_lap_time_from_timestamps e).map lkey)
        (compute_lap_time_from_timestamps t)).filter
          (fun r => decide (r.lap ≠ none))) := by
    rw [build_laps, mergedLaps, if_pos htne, finalizeLaps, if_neg hmne]
  constructor
  · refine ⟨⟨v, some l, rt.lap_time_s⟩, ?_, rfl, ?_⟩
    · rw [hbuild]
      refine ((List.perm_insertionSort byVidLap _).mem_iff).mpr
        (List.mem_filter.mpr ⟨hEx, by simp⟩)
    · rw [hvt]
  · intro r hr hk
    rw [hbuild] at hr
    have hr1 := ((List.perm_insertionSort byVidLap _).mem_iff).mp hr
    have hr2 := (List.mem_filter.mp hr1).1
    rw [outerMerge_key_val hkinleft hft r hr2 hk, hvt]

/-- Witness for C1 at a concrete dataset: vehicle "1", lap 2 has end-log
duration 2 s and time-log duration 7 s; `build_laps` reports 7 s. -/
theorem C1_witness :
    (∃ r ∈ build_laps (some [⟨"1", some 1, some 3⟩, ⟨"1", some 2, some 5⟩])
        (some [⟨"1", some 1, some 3⟩, ⟨"1", some 2, some 10⟩]),
      lkey r = ("1", some 2) ∧ r.lap_time_s = some 7) ∧
      ∀ r ∈ build_laps (some [⟨"1", some 1, some 3⟩, ⟨"1", some 2, some 5⟩])
          (some [⟨"1", some 1, some 3⟩, ⟨"1", some 2, some 10⟩]),
        lkey r = ("1", some 2) → r.lap_time_s = some 7 :=
  C1_build_laps_time_log_wins
    (some [⟨"1", some 1, some 3⟩, ⟨"1", some 2, some 5⟩])
    (some [⟨"1", some 1, some 3⟩, ⟨"1", some 2, some 10⟩]) "1" 2 2 7
    (by with_unfolding_all decide) (by with_unfolding_all decide)
    (by norm_num)

/-- C2 counterexample: the claim "every record in the output of `build_laps`
has `lap ≥ 1`" fails on the code — an end-log row with the numeric lap value
`0` parses successfully and flows through to the output; no `lap ≥ 1` filter
exists anywhere in `build_laps`. -/
theorem C2_counterexample :
    ∃ r ∈ build_laps (some [⟨"1", some 0, some 0⟩]) none, r.lap = some 0 := by
  with_unfolding_all decide

/-- C2 (amended): every record in the output of `build_laps` has a
successfully parsed (non-null) integer lap — rows whose lap value fails
numeric parsing are dropped — but the lap value is not constrained to be
≥ 1. -/
theorem C2_laps_parsed (e t : Option (List TRow)) :
    ∀ r ∈ build_laps e t, r.lap ≠ none := by
  intro r hr
  rw [build_laps, finalizeLaps] at hr
  split at hr
  · rename_i h
    rw [h] at hr
    cases hr
  · have hr1 := ((List.perm_insertionSort byVidLap _).mem_iff).mp hr
    have := (List.mem_filter.mp hr1).2
    rwa [decide_eq_true_iff] at this

/-- Witness for C2 (amended) at a concrete dataset. -/
theorem C2_witness : (⟨"1", some 1, none⟩ : LRow).lap ≠ none :=
  C2_laps_parsed (some [⟨"1", some 1, some 0⟩]) none ⟨"1", some 1, none⟩
    (by with_unfolding_all decide)

/-- C4: for an end-log with vehicle "12", laps [1,2,3] at timestamps
[T, T+90s, T+181s] and an empty time-log, `build_laps` yields
`lap_time_s = [absent, 90, 91]`: each duration is the timestamp delta to the
preceding row in (lap, timestamp)-sorted order and the first lap has an absent
duration, not zero. -/
theorem C4_scenario (T : ℚ) :
    build_laps (some [⟨"12", some 1, some T⟩, ⟨"12", some 2, some (T + 90)⟩,
      ⟨"12", some 3, some (T + 181)⟩]) none =
    [⟨"12", some 1, none⟩, ⟨"12", some 2, some 90⟩, ⟨"12", some 3, some 91⟩] := by
  have h1 : T + 90 - T = (90 : ℚ) := by ring
  have h2 : T + 181 - (T + 90) = (91 : ℚ) := by ring
  simp [build_laps, compute_lap_time_from_timestamps, grouped, sortedIds,
    per_id, sortGroup, keepLastByKey, mergedLaps, finalizeLaps, diffColumn,
    lkey, byLapTs, lapLT, tsLE, byVidLap, lapLE, h1, h2]

/-- C9: `process_telemetry` with the reversed lap range (1, 0) — and more
generally with any vehicle/lap-range filter under which the table becomes
empty — returns the empty metrics map and the empty table (and, the model
being total, raises nothing). -/
theorem C9_empty_result :
    (∀ t v, process_telemetry t v (some (1, 0)) = emptyTel) ∧
      ∀ t v lr, filteredEmpty t v lr → process_telemetry t v lr = emptyTel := by
  have hgen : ∀ t v lr, filteredEmpty t v lr → process_telemetry t v lr = emptyTel := by
    intro t v lr h
    cases t with
    | long rows =>
      have h' : filterTel rows v lr = [] := h
      by_cases hr : rows = []
      · simp [process_telemetry, hr]
      · simp [process_telemetry, hr, h']
    | wide w =>
      have h' : filterWide w.rows v lr = [] := h
      by_cases hr : w.rows = []
      · simp [process_telemetry, hr]
      · simp [process_telemetry, hr, h']
  refine ⟨?_, hgen⟩
  intro t v
  apply hgen
  cases t with
  | long rows =>
    show filterTel rows v (some (1, 0)) = []
    unfold filterTel
    refine List.filter_eq_nil_iff.mpr ?_
    intro a ha
    simp only [decide_eq_true_iff]
    omega
  | wide w =>
    show filterWide w.rows v (some (1, 0)) = []
    unfold filterWide
    refine List.filter_eq_nil_iff.mpr ?_
    intro a ha
    simp only [decide_eq_true_iff]
    omega

/-- Witness for C9 at a concrete dataset: a vehicle filter that matches
nothing empties the table and yields the empty result. -/
theorem C9_witness :
    process_telemetry (.long [⟨"7", 3, "aps", some 40⟩]) (some "9") none = emptyTel :=
  C9_empty_result.2 (.long [⟨"7", 3, "aps", some 40⟩]) (some "9") none
    (show filterTel [⟨"7", 3, "aps", some 40⟩] (some "9") none = [] by decide)

/-- C10 counterexample: the claim "the batch aggregator CLI exits nonzero on
any read failure, including when it cannot complete a full pass over an
input" fails on the code — when an input file is missing (here race 1:
`present1 = false`), `aggregate_telemetry_file` prints an error and returns
normally, `main` continues, and the process exits 0. -/
theorem C10_counterexample : mainExitCode false true true true = 0 := rfl

/-- C10 (amended): the aggregator CLI exits nonzero exactly when some
*existing* input raises during its read/parse/aggregate/write pipeline; a
missing input file is skipped with a warning and contributes exit code 0; and
the artifact for a race is published only when that race's pipeline ran to
completion. -/
theorem C10_exit_codes :
    ∀ present1 ok1 present2 ok2 : Bool,
      (mainExitCode present1 ok1 present2 ok2 = 0 ↔
        ((present1 = true → ok1 = true) ∧ (present2 = true → ok2 = true))) ∧
      (aggregate_telemetry_file present1 ok1 = .ok true ↔
        (present1 = true ∧ ok1 = true)) := by
  intro present1 ok1 present2 ok2
  cases present1 <;> cases ok1 <;> cases present2 <;> cases ok2 <;>
    simp [mainExitCode, aggregate_telemetry_file]

/-- C6: `best_lap` on an empty lap frame returns the not-a-number sentinel
(`none`), on the series [92.1, 90.3, 95.0] returns 90.3, and in general any
value it returns is the minimum of the `lap_time_s` series ignoring absent
values. -/
theorem C6_best_lap :
    best_lap [] = none ∧
    best_lap [⟨"7", some 1, some (921 / 10)⟩, ⟨"7", some 2, some (903 / 10)⟩,
      ⟨"7", some 3, some 95⟩] = some (903 / 10) ∧
    ∀ df v, best_lap df = some v →
      v ∈ validVals (df.map (·.lap_time_s)) ∧
        ∀ w ∈ validVals (df.map (·.lap_time_s)), v ≤ w := by
  refine ⟨rfl, by with_unfolding_all decide, ?_⟩
  intro df v h
  rw [best_lap] at h
  split at h
  · constructor
    · exact List.min?_mem (fun a b => min_choice a b) h
    · intro w hw
      exact (List.le_min?_iff (fun a b c => le_min_iff) h).mp (le_refl v) w hw
  · cases h

/-- The merged frame of `build_laps` has pairwise-distinct `(vehicle_id, lap)`
keys whichever branch the merge takes. -/
theorem merged_pairwise (e t : Option (List TRow)) :
    (mergedLaps (compute_lap_time_from_timestamps e)
      (compute_lap_time_from_timestamps t)).Pairwise
      (fun a b => lkey a ≠ lkey b) := by
  rw [mergedLaps]
  split
  · refine outerMerge_pairwise ?_ (compute_pairwise t)
    exact (List.pairwise_map).mpr (compute_pairwise e)
  · exact compute_pairwise e

/-- C3: the output of `build_laps` has at most one record per
`(vehicle_id, lap)` pair (pairwise-distinct keys) and is sorted ascending by
`(vehicle_id, lap)`; and when the per-vehicle grouping produces repeated
`(vehicle_id, lap)` pairs, the dedup step keeps the later-computed record:
the surviving record for any key is the last record with that key in the
grouped (pre-dedup) frame. -/
theorem C3_dedup_and_order :
    (∀ e t, (build_laps e t).Pairwise (fun a b => lkey a ≠ lkey b) ∧
      (build_laps e t).Pairwise byVidLap) ∧
    ∀ rows k, ((compute_lap_time_from_timestamps (some rows)).filter
        (fun r => decide (lkey r = k))) =
      (((grouped rows).filter (fun r => decide (lkey r = k))).getLast?).toList := by
  constructor
  · intro e t
    rw [build_laps, finalizeLaps]
    constructor
    · split
      · rename_i h
        rw [h]
        exact List.Pairwise.nil
      · refine ((List.perm_insertionSort byVidLap _).pairwise_iff
          (fun h => Ne.symm h)).mpr ?_
        exact (merged_pairwise e t).sublist (List.filter_sublist _)
    · split
      · rename_i h
        rw [h]
        exact List.Pairwise.nil
      · exact List.sorted_insertionSort byVidLap _
  · intro rows k
    rw [compute_lap_time_from_timestamps]
    split
    · rename_i h
      subst h
      rfl
    · exact filter_keepLastByKey lkey k (grouped rows)

theorem mem_metricBlock {p : WideTable} {col m name : String}
    (h : name ∈ (metricBlock p col m).map Prod.fst) :
    name = m ∧ col ∈ p.cols := by
  rw [metricBlock] at h
  split at h
  · rename_i hc
    simp at h
    exact ⟨h, hc⟩
  · simp at h

theorem mem_brakeBlock {p : WideTable} {name : String}
    (h : name ∈ (match p.cols.filter (fun c => strContainsLower c "pbrake") with
      | [] => []
      | b :: _ => [("brake_usage", setIndexCol p b)]).map Prod.fst) :
    name = "brake_usage" ∧ ∃ c ∈ p.cols, strContainsLower c "pbrake" = true := by
  cases hb : p.cols.filter (fun c => strContainsLower c "pbrake") with
  | nil =>
    rw [hb] at h
    simp at h
  | cons b bs =>
    rw [hb] at h
    simp at h
    have hbmem : b ∈ p.cols.filter (fun c => strContainsLower c "pbrake") := by
      rw [hb]
      exact List.mem_cons_self b bs
    exact ⟨h, b, (List.mem_filter.mp hbmem).1, (List.mem_filter.mp hbmem).2⟩

/-- Each metric key appears in the metrics dict only if its source column
exists in the wide table it was extracted from. -/
theorem extract_presence (p : WideTable) :
    ("speed" ∈ (extractMetrics p).map Prod.fst → "speed" ∈ p.cols) ∧
    ("fuel_usage" ∈ (extractMetrics p).map Prod.fst → "aps" ∈ p.cols) ∧
    ("brake_usage" ∈ (extractMetrics p).map Prod.fst →
      ∃ c ∈ p.cols, strContainsLower c "pbrake" = true) ∧
    ("acceleration" ∈ (extractMetrics p).map Prod.fst → "accx_can" ∈ p.cols) ∧
    ("gear" ∈ (extractMetrics p).map Prod.fst → "gear" ∈ p.cols) ∧
    ("rpm" ∈ (extractMetrics p).map Prod.fst → "nmot" ∈ p.cols) := by
  refine ⟨?_, ?_, ?_, ?_, ?_, ?_⟩ <;> intro h <;> rw [extractMetrics] at h <;>
    simp only [List.map_append, List.mem_append] at h <;>
    rcases h with ((((h | h) | h) | h) | h) | h <;>
    first
      | exact (mem_metricBlock h).2
      | exact (mem_brakeBlock h).2
      | exact absurd (mem_metricBlock h).1 (by decide)
      | exact absurd (mem_brakeBlock h).1 (by decide)

/-- C8: `process_telemetry` is a pure function of its arguments — in this
embedding it is a function, so two calls on identical arguments are literally
equal, with no hidden state (the source mutates nothing it did not copy) —
and each metric key is present in the metrics map only if its source column
exists in the pivoted table returned alongside it. -/
theorem C8_pure_and_presence (t : Tel) (v : Option String)
    (lr : Option (Int × Int)) :
    process_telemetry t v lr = process_telemetry t v lr ∧
    (("speed" ∈ (process_telemetry t v lr).1.map Prod.fst →
        "speed" ∈ (process_telemetry t v lr).2.cols) ∧
     ("fuel_usage" ∈ (process_telemetry t v lr).1.map Prod.fst →
        "aps" ∈ (process_telemetry t v lr).2.cols) ∧
     ("brake_usage" ∈ (process_telemetry t v lr).1.map Prod.fst →
        ∃ c ∈ (process_telemetry t v lr).2.cols,
          strContainsLower c "pbrake" = true) ∧
     ("acceleration" ∈ (process_telemetry t v lr).1.map Prod.fst →
        "accx_can" ∈ (process_telemetry t v lr).2.cols) ∧
     ("gear" ∈ (process_telemetry t v lr).1.map Prod.fst →
        "gear" ∈ (process_telemetry t v lr).2.cols) ∧
     ("rpm" ∈ (process_telemetry t v lr).1.map Prod.fst →
        "nmot" ∈ (process_telemetry t v lr).2.cols)) := by
  refine ⟨rfl, ?_⟩
  cases t with
  | long rows =>
    rw [process_telemetry]
    split
    · simp [emptyTel]
    · split
      · simp [emptyTel]
      · exact extract_presence _
  | wide w =>
    rw [process_telemetry]
    split
    · simp [emptyTel]
    · split
      · simp [emptyTel]
      · exact extract_presence _

/-- Witness for C8 at a concrete dataset: the `fuel_usage` metric is present
and its source column `aps` indeed exists in the pivoted table. -/
theorem C8_witness :
    "aps" ∈ (process_telemetry (.long [⟨"7", 3, "aps", some 40⟩]) none none).2.cols :=
  (C8_pure_and_presence (.long [⟨"7", 3, "aps", some 40⟩]) none none).2.2.1
    (by with_unfolding_all decide)

theorem mem_validVals {l : List (Option ℚ)} {a : ℚ} :
    a ∈ validVals l ↔ some a ∈ l := by
  rw [validVals]
  constructor
  · intro h
    obtain ⟨o, ho, hoa⟩ := List.mem_filterMap.mp h
    exact hoa ▸ ho
  · intro h
    exact List.mem_filterMap.mpr ⟨some a, h, rfl⟩

theorem validVals_length_le (l : List (Option ℚ)) :
    (validVals l).length ≤ l.length :=
  List.length_filterMap_le id l

theorem validVals_append (a b : List (Option ℚ)) :
    validVals (a ++ b) = validVals a ++ validVals b :=
  List.filterMap_append a b id

theorem validVals_length_of_all_some {l : List (Option ℚ)}
    (h : ∀ a ∈ l, a ≠ none) : (validVals l).length = l.length := by
  induction l with
  | nil => rfl
  | cons a as ih =>
    cases a with
    | none => exact absurd rfl (h none (List.mem_cons_self _ _))
    | some q =>
      have ihh := ih (fun a ha => h a (List.mem_cons_of_mem _ ha))
      simp only [validVals, List.filterMap_cons, id] at ihh ⊢
      simp [ihh]

theorem mem_windowAt {w : Nat} {x : List (Option ℚ)} {i : Nat}
    {a : Option ℚ} (h : a ∈ windowAt w x i) : a ∈ x := by
  rw [windowAt] at h
  exact List.take_subset _ _ (List.drop_subset _ _ h)

theorem rollingApply_getElem (w m : Nat) (f : List ℚ → ℚ)
    (x : List (Option ℚ)) (i : Nat) (h : i < x.length) :
    (rollingApply w m f x)[i]? =
      some (if m ≤ (validVals (windowAt w x i)).length
        then some (f (validVals (windowAt w x i))) else none) := by
  rw [rollingApply, List.getElem?_map, List.getElem?_range h]
  rfl

theorem length_rollingApply (w m : Nat) (f : List ℚ → ℚ)
    (x : List (Option ℚ)) : (rollingApply w m f x).length = x.length := by
  rw [rollingApply]
  simp

theorem med_none_early (w : Nat) (x : List (Option ℚ)) (j : Nat)
    (hj : j < x.length) (hj2 : j < 2) :
    (rollingApply w 3 median x)[j]? = some none := by
  rw [rollingApply_getElem w 3 median x j hj]
  have h1 : (validVals (windowAt w x j)).length ≤ (windowAt w x j).length :=
    validVals_length_le _
  have h2 : (windowAt w x j).length ≤ j + 1 := by
    rw [windowAt, List.length_drop, List.length_take]
    omega
  rw [if_neg (by omega)]

theorem dd_none_early {x : List (Option ℚ)} (j : Nat) (hj : j < x.length)
    (hj2 : j < 2) :
    (List.zipWith subAbs x (rollingApply 8 3 median x))[j]? = some none := by
  rw [List.getElem?_zipWith]
  have ha : x[j]? = some x[j] := List.getElem?_eq_getElem hj
  rw [ha, med_none_early 8 x j hj hj2]
  cases x[j] <;> rfl

theorem med_some_late {x : List (Option ℚ)} (hall : ∀ a ∈ x, a ≠ none)
    (j : Nat) (hj : j < x.length) (hj2 : 2 ≤ j) :
    (rollingApply 8 3 median x)[j]? =
      some (some (median (validVals (windowAt 8 x j)))) := by
  rw [rollingApply_getElem 8 3 median x j hj, if_pos]
  have hv : (validVals (windowAt 8 x j)).length = (windowAt 8 x j).length :=
    validVals_length_of_all_some (fun a ha => hall a (mem_windowAt ha))
  rw [hv, windowAt, List.length_drop, List.length_take]
  omega

theorem dd_some_late {x : List (Option ℚ)} (hall : ∀ a ∈ x, a ≠ none)
    (j : Nat) (hj : j < x.length) (hj2 : 2 ≤ j) :
    ∃ q, (List.zipWith subAbs x (rollingApply 8 3 median x))[j]? =
      some (some q) := by
  rw [List.getElem?_zipWith]
  have ha : x[j]? = some x[j] := List.getElem?_eq_getElem hj
  have ha' : x[j] ≠ none := hall x[j] (List.getElem?_mem ha)
  obtain ⟨p, hp⟩ := Option.ne_none_iff_exists'.mp ha'
  rw [ha, hp, med_some_late hall j hj hj2]
  exact ⟨_, rfl⟩

theorem dd_values_nonneg {x med : List (Option ℚ)} :
    ∀ o ∈ List.zipWith subAbs x med, ∀ v, o = some v → 0 ≤ v := by
  induction x generalizing med with
  | nil =>
    intro o ho
    simp at ho
  | cons a as ih =>
    cases med with
    | nil =>
      intro o ho
      simp at ho
    | cons m ms =>
      intro o ho v hv
      rcases List.mem_cons.mp ho with rfl | ho'
      · cases a with
        | none => simp [subAbs] at hv
        | some p =>
          cases m with
          | none => simp [subAbs] at hv
          | some q =>
            simp [subAbs] at hv
            rw [← hv]
            exact abs_nonneg _
      · exact ih o ho' v hv

theorem getD_nonneg {s : List ℚ} (h : ∀ a ∈ s, 0 ≤ a) (i : Nat) :
    0 ≤ s.getD i 0 := by
  rw [List.getD_eq_getElem?_getD]
  cases hs : s[i]? with
  | none => simp
  | some a => simpa using h a (List.getElem?_mem hs)

theorem median_nonneg {l : List ℚ} (h : ∀ a ∈ l, 0 ≤ a) : 0 ≤ median l := by
  have hs : ∀ a ∈ List.insertionSort (· ≤ ·) l, 0 ≤ a := by
    intro a ha
    exact h a ((List.perm_insertionSort _ l).subset ha)
  rw [median]
  split
  · exact getD_nonneg hs _
  · exact div_nonneg (add_nonneg (getD_nonneg hs _) (getD_nonneg hs _))
      (by norm_num)

theorem count_dd_late {x : List (Option ℚ)} (hall : ∀ a ∈ x, a ≠ none)
    (i : Nat) (hi : 4 ≤ i) (hilen : i < x.length) :
    3 ≤ (validVals (windowAt 8
      (List.zipWith subAbs x (rollingApply 8 3 median x)) i)).length := by
  have hdlen : (List.zipWith subAbs x (rollingApply 8 3 median x)).length
      = x.length := by
    rw [List.length_zipWith, length_rollingApply]
    omega
  rw [windowAt]
  have hsplit : i + 1 = (i - 2) + 3 := by omega
  rw [hsplit, List.take_add]
  have hlenA : ((List.zipWith subAbs x (rollingApply 8 3 median x)).take
      (i - 2)).length = i - 2 := by
    rw [List.length_take]
    omega
  rw [List.drop_append_of_le_length (by rw [hlenA]; omega)]
  rw [validVals_append, List.length_append]
  have hBall : ∀ b ∈ ((List.zipWith subAbs x
      (rollingApply 8 3 median x)).drop (i - 2)).take 3, b ≠ none := by
    intro b hb
    obtain ⟨j, hj⟩ := List.mem_iff_getElem?.mp hb
    rw [List.getElem?_take] at hj
    by_cases hj3 : j < 3
    · rw [if_pos hj3, List.getElem?_drop] at hj
      obtain ⟨q, hq⟩ := dd_some_late hall ((i - 2) + j) (by omega) (by omega)
      rw [hq] at hj
      injection hj with h'
      rw [← h']
      simp
    · rw [if_neg hj3] at hj
      simp at hj
  have h3 : (validVals (((List.zipWith subAbs x
      (rollingApply 8 3 median x)).drop (i - 2)).take 3)).length = 3 := by
    rw [validVals_length_of_all_some hBall, List.length_take,
      List.length_drop, hdlen]
    omega
  omega

/-- C5 counterexample: the claim "rolling_consistency (window 8) is absent for
the first 2 entries and non-negative from the 3rd entry onward" fails on the
code — on the all-present series [90, 91, 92, 90, 91] the 3rd entry (index 2)
is absent, because the deviation column inherits nulls from the first rolling
median and the second rolling's `min_periods=3` is not yet met. -/
theorem C5_counterexample :
    ([some 90, some 91, some 92, some 90, some (91 : ℚ)].length = 5) ∧
    (rolling_consistency 8
      [some 90, some 91, some 92, some 90, some 91])[2]? = some none :=
  ⟨rfl, by with_unfolding_all decide⟩

/-- C5 (amended): `rolling_consistency` with window 8 is absent at the first
*four* positions of any series, and on a series with no absent entries it is
present and non-negative (1.4826 times a median of absolute deviations) at
every position from the 5th onward. -/
theorem C5_rolling_consistency (x : List (Option ℚ)) (i : Nat) :
    (i < 4 → i < x.length → (rolling_consistency 8 x)[i]? = some none) ∧
    ((∀ a ∈ x, a ≠ none) → 4 ≤ i → i < x.length →
      ∃ v, (rolling_consistency 8 x)[i]? = some (some v) ∧ 0 ≤ v) := by
  have hdlen : (List.zipWith subAbs x (rollingApply 8 3 median x)).length
      = x.length := by
    rw [List.length_zipWith, length_rollingApply]
    omega
  constructor
  · intro hi4 hilen
    rw [rolling_consistency, List.getElem?_map,
      rollingApply_getElem 8 3 median _ i (by omega)]
    have hcount : (validVals (windowAt 8 (List.zipWith subAbs x
        (rollingApply 8 3 median x)) i)).length < 3 := by
      rw [windowAt]
      have hiw : i + 1 - 8 = 0 := by omega
      rw [hiw, List.drop_zero]
      by_cases hi2 : i < 2
      · have h1 := validVals_length_le
          ((List.zipWith subAbs x (rollingApply 8 3 median x)).take (i + 1))
        have h2 : ((List.zipWith subAbs x
            (rollingApply 8 3 median x)).take (i + 1)).length ≤ i + 1 := by
          rw [List.length_take]
          omega
        omega
      · have hsplit : i + 1 = 2 + (i - 1) := by omega
        rw [hsplit, List.take_add, validVals_append, List.length_append]
        have hA : (validVals ((List.zipWith subAbs x
            (rollingApply 8 3 median x)).take 2)).length = 0 := by
          rw [List.length_eq_zero, validVals, List.filterMap_eq_nil_iff]
          intro a ha
          obtain ⟨j, hj⟩ := List.mem_iff_getElem?.mp ha
          rw [List.getElem?_take] at hj
          by_cases hj2 : j < 2
          · rw [if_pos hj2, dd_none_early j (by omega) hj2] at hj
            injection hj with h'
            rw [← h']
            rfl
          · rw [if_neg hj2] at hj
            simp at hj
        have hB := validVals_length_le (((List.zipWith subAbs x
          (rollingApply 8 3 median x)).drop 2).take (i - 1))
        have hBlen : ((((List.zipWith subAbs x
            (rollingApply 8 3 median x)).drop 2)).take (i - 1)).length
            ≤ i - 1 := by
          rw [List.length_take]
          omega
        omega
    rw [if_neg (by omega)]
    rfl
  · intro hall hi4 hilen
    rw [rolling_consistency, List.getElem?_map,
      rollingApply_getElem 8 3 median _ i (by omega),
      if_pos (count_dd_late hall i hi4 hilen)]
    refine ⟨_, rfl, ?_⟩
    refine mul_nonneg (by norm_num) (median_nonneg ?_)
    intro a ha
    have hsome : some a ∈ windowAt 8 (List.zipWith subAbs x
        (rollingApply 8 3 median x)) i := mem_validVals.mp ha
    exact dd_values_nonneg (some a) (mem_windowAt hsome) a rfl

/-- Witness for C5 (amended) at a concrete all-present series: index 1 is
absent and index 4 carries a non-negative value. -/
theorem C5_witness :
    (rolling_consistency 8
      [some 90, some 91, some 92, some 90, some (91 : ℚ)])[1]? = some none ∧
    ∃ v, (rolling_consistency 8
      [some 90, some 91, some 92, some 90, some (91 : ℚ)])[4]? =
        some (some v) ∧ 0 ≤ v :=
  ⟨(C5_rolling_consistency [some 90, some 91, some 92, some 90, some 91] 1).1
      (by omega) (by decide),
   (C5_rolling_consistency [some 90, some 91, some 92, some 90, some 91] 4).2
      (by decide) (by omega) (by decide)⟩

theorem meanOpt_single (v : Option ℚ) : meanOpt [v] = v := by
  cases v with
  | none => rfl
  | some q =>
    rw [meanOpt]
    simp [validVals]

theorem filter_key_eq_single {α κ : Type} [DecidableEq κ] (key : α → κ)
    {l : List α} {r : α} (hp : l.Pairwise fun a b => key a ≠ key b)
    (hr : r ∈ l) : l.filter (fun x => decide (key x = key r)) = [r] := by
  induction l with
  | nil => cases hr
  | cons x xs ih =>
    rcases List.mem_cons.mp hr with rfl | hr'
    · rw [List.filter_cons, if_pos (by simp)]
      have hnil : xs.filter (fun y => decide (key y = key r)) = [] := by
        rw [List.filter_eq_nil_iff]
        intro y hy hky
        rw [decide_eq_true_iff] at hky
        exact (List.pairwise_cons.mp hp).1 y hy hky.symm
      rw [hnil]
    · have hx : key x ≠ key r := (List.pairwise_cons.mp hp).1 r hr'
      rw [List.filter_cons, if_neg (by simp [hx])]
      exact ih (List.pairwise_cons.mp hp).2 hr'

theorem find?_map_builder {κ α : Type} [DecidableEq κ] {ks : List κ}
    (b : κ → α) (key : α → κ) (hb : ∀ k, key (b k) = k) {k : κ}
    (hk : k ∈ ks) :
    (ks.map b).find? (fun x => decide (key x = k)) = some (b k) := by
  induction ks with
  | nil => cases hk
  | cons k0 ks ih =>
    rcases List.mem_cons.mp hk with rfl | hk'
    · rw [List.map_cons, List.find?_cons_of_pos _ (by simp [hb])]
    · by_cases hek : k0 = k
      · subst hek
        rw [List.map_cons, List.find?_cons_of_pos _ (by simp [hb])]
      · rw [List.map_cons, List.find?_cons_of_neg _ (by simp [hb, hek])]
        exact ih hk'

theorem groupMeanLong_keys_eq (rows : List TelRow) :
    (groupMeanLong rows).map key3 =
      List.insertionSort lexSIS ((rows.map key3).dedup) := by
  rw [groupMeanLong, List.map_map]
  calc (List.insertionSort lexSIS ((rows.map key3).dedup)).map _
      = (List.insertionSort lexSIS ((rows.map key3).dedup)).map id :=
        List.map_congr_left (fun k _ => rfl)
    _ = _ := List.map_id _

theorem groupMeanLong_keys_nodup (rows : List TelRow) :
    ((groupMeanLong rows).map key3).Nodup := by
  rw [groupMeanLong_keys_eq]
  exact ((List.perm_insertionSort _ _).nodup_iff).mpr (List.nodup_dedup _)

theorem groupMeanLong_keys_perm_of_nodup {rows : List TelRow}
    (hnd : (rows.map key3).Nodup) :
    ((groupMeanLong rows).map key3).Perm (rows.map key3) := by
  rw [groupMeanLong_keys_eq, List.dedup_eq_self.mpr hnd]
  exact List.perm_insertionSort lexSIS (rows.map key3)

theorem lookup3_groupMeanLong {rows : List TelRow}
    (hnd : (rows.map key3).Nodup) (k : String × Int × String) :
    lookup3 (groupMeanLong rows) k = lookup3 rows k := by
  by_cases hk : k ∈ rows.map key3
  · obtain ⟨r, hr, hkr⟩ := List.mem_map.mp hk
    subst hkr
    have hfr : rows.find? (fun x => decide (key3 x = key3 r)) = some r :=
      find?_key_of_mem key3 ((List.pairwise_map).mp hnd) hr
    have hks : key3 r ∈ List.insertionSort lexSIS ((rows.map key3).dedup) := by
      refine ((List.perm_insertionSort _ _).mem_iff).mpr ?_
      rw [List.mem_dedup]
      exact List.mem_map.mpr ⟨r, hr, rfl⟩
    have hfind := find?_map_builder
      (fun k : String × Int × String => (⟨k.1, k.2.1, k.2.2,
        meanOpt ((rows.filter (fun r => decide (key3 r = k))).map
          (·.value))⟩ : TelRow))
      key3 (fun k => rfl) hks
    rw [lookup3, lookup3, hfr, groupMeanLong, hfind]
    have hfilter : rows.filter (fun x => decide (key3 x = key3 r)) = [r] :=
      filter_key_eq_single key3 ((List.pairwise_map).mp hnd) hr
    simp only [hfilter, List.map_cons, List.map_nil, Option.map_some']
    rw [meanOpt_single]
  · have h1 : rows.find? (fun x => decide (key3 x = k)) = none := by
      rw [List.find?_eq_none]
      intro x hx hpx
      rw [decide_eq_true_iff] at hpx
      exact hk (List.mem_map.mpr ⟨x, hx, hpx⟩)
    have h2 : (groupMeanLong rows).find? (fun x => decide (key3 x = k)) = none := by
      rw [List.find?_eq_none]
      intro x hx hpx
      rw [decide_eq_true_iff] at hpx
      have : key3 x ∈ (groupMeanLong rows).map key3 :=
        List.mem_map.mpr ⟨x, hx, rfl⟩
      rw [groupMeanLong_keys_eq, (List.perm_insertionSort _ _).mem_iff,
        List.mem_dedup, hpx] at this
      exact hk this
    rw [lookup3, lookup3, h1, h2]

theorem lookup3_append (a b : List TelRow) (k : String × Int × String) :
    lookup3 (a ++ b) k = (lookup3 a k).or (lookup3 b k) := by
  rw [lookup3, lookup3, lookup3, List.find?_append]
  cases ha : a.find? (fun r => decide (key3 r = k)) <;> simp [ha]

theorem flatten_keys_split {c : List TelRow} {cs : List (List TelRow)}
    (hnd : (((c :: cs).flatten).map key3).Nodup) :
    (c.map key3).Nodup ∧ ((cs.flatten).map key3).Nodup := by
  rw [List.flatten_cons, List.map_append] at hnd
  exact ⟨hnd.of_append_left, hnd.of_append_right⟩

theorem lookup3_flatten_groupMean (chunks : List (List TelRow))
    (hnd : ((chunks.flatten).map key3).Nodup) (k : String × Int × String) :
    lookup3 ((chunks.map groupMeanLong).flatten) k
      = lookup3 (chunks.flatten) k := by
  induction chunks with
  | nil => rfl
  | cons c cs ih =>
    rw [List.map_cons, List.flatten_cons, List.flatten_cons,
      lookup3_append, lookup3_append]
    obtain ⟨h1, h2⟩ := flatten_keys_split hnd
    rw [lookup3_groupMeanLong h1, ih h2]

theorem flatten_groupMean_keys_perm (chunks : List (List TelRow))
    (hnd : ((chunks.flatten).map key3).Nodup) :
    (((chunks.map groupMeanLong).flatten).map key3).Perm
      ((chunks.flatten).map key3) := by
  induction chunks with
  | nil => exact List.Perm.refl _
  | cons c cs ih =>
    rw [List.map_cons, List.flatten_cons, List.flatten_cons,
      List.map_append, List.map_append]
    obtain ⟨h1, h2⟩ := flatten_keys_split hnd
    exact (groupMeanLong_keys_perm_of_nodup h1).append (ih h2)

theorem mem_pivotChannels {rows : List TelRow} {r : TelRow} (hr : r ∈ rows)
    (hv : r.value ≠ none) : r.name ∈ pivotChannels rows := by
  rw [pivotChannels]
  refine ((List.perm_insertionSort _ _).mem_iff).mpr ?_
  rw [List.mem_dedup]
  exact List.mem_map.mpr ⟨r, List.mem_filter.mpr ⟨hr, by simp [hv]⟩, rfl⟩

theorem mem_pivotKeys {rows : List TelRow} {r : TelRow} (hr : r ∈ rows) :
    key2 r ∈ pivotKeys rows := by
  rw [pivotKeys]
  refine ((List.perm_insertionSort _ _).mem_iff).mpr ?_
  rw [List.mem_dedup]
  exact List.mem_map.mpr ⟨r, hr, rfl⟩

theorem lookup_map_pair {β : Type} {cs : List String} (f : String → β)
    {c : String} (hc : c ∈ cs) :
    (cs.map (fun c => (c, f c))).lookup c = some (f c) := by
  induction cs with
  | nil => cases hc
  | cons c0 cs ih =>
    rcases List.mem_cons.mp hc with rfl | hc'
    · rw [List.map_cons]
      exact List.lookup_cons_self
    · rw [List.map_cons, List.lookup_cons]
      by_cases he : c = c0
      · subst he
        simp
      · rw [beq_eq_false_iff_ne.mpr he]
        exact ih hc'

theorem lookupWide_pivotMean {rows : List TelRow} {r : TelRow}
    (hnd : (rows.map key3).Nodup) (hr : r ∈ rows) (hv : r.value ≠ none) :
    lookupWide (pivotMean rows) r.vid r.lap r.name = r.value := by
  have hkmem : key2 r ∈ pivotKeys rows := mem_pivotKeys hr
  have hfind : ((pivotKeys rows).map (fun k : String × Int =>
      (⟨k.1, k.2, (pivotChannels rows).map
        fun c => (c, pivotCell rows k c)⟩ : WideRow))).find?
      (fun wr => decide ((wr.vid, wr.lap) = (r.vid, r.lap))) =
      some ⟨r.vid, r.lap, (pivotChannels rows).map
        fun c => (c, pivotCell rows (key2 r) c)⟩ :=
    find?_map_builder
      (fun k : String × Int => (⟨k.1, k.2, (pivotChannels rows).map
        fun c => (c, pivotCell rows k c)⟩ : WideRow))
      (fun wr => (wr.vid, wr.lap)) (fun k => rfl) hkmem
  rw [lookupWide, pivotMean]
  dsimp only
  rw [hfind]
  show ((((pivotChannels rows).map
    fun c => (c, pivotCell rows (key2 r) c)).lookup r.name).getD none) = r.value
  have hcmem : r.name ∈ pivotChannels rows := mem_pivotChannels hr hv
  rw [lookup_map_pair (fun c => pivotCell rows (key2 r) c) hcmem,
    Option.getD_some, pivotCell]
  have hfe : rows.filter (fun x => decide (key2 x = key2 r ∧ x.name = r.name))
      = rows.filter (fun x => decide (key3 x = key3 r)) := by
    apply List.filter_congr
    intro x hx
    apply decide_eq_decide.mpr
    constructor
    · rintro ⟨h2, h3⟩
      simp only [key2, Prod.ext_iff] at h2
      simp only [key3, Prod.ext_iff]
      exact ⟨h2.1, h2.2, h3⟩
    · intro h
      simp only [key3, Prod.ext_iff] at h
      simp only [key2, Prod.ext_iff]
      exact ⟨⟨h.1, h.2.1⟩, h.2.2⟩
  rw [hfe, filter_key_eq_single key3 ((List.pairwise_map).mp hnd) hr]
  simp only [List.map_cons, List.map_nil]
  exact meanOpt_single r.value

theorem seriesAt_setIndexCol (W : WideTable) (c v : String) (l : Int) :
    seriesAt (setIndexCol W c) v l = lookupWide W v l c := by
  rw [seriesAt, setIndexCol, List.find?_map]
  rw [show ((fun e : (String × Int) × Option ℚ => decide (e.1 = (v, l))) ∘
    (fun wr : WideRow => ((wr.vid, wr.lap), (wr.cells.lookup c).getD none))) =
    (fun wr : WideRow => decide ((wr.vid, wr.lap) = (v, l))) from rfl]
  rw [lookupWide]
  cases hf : W.rows.find? (fun wr => decide ((wr.vid, wr.lap) = (v, l))) with
  | none => rfl
  | some wr => rfl

theorem lookup_fuel {W : WideTable} (haps : "aps" ∈ W.cols) :
    (extractMetrics W).lookup "fuel_usage" = some (setIndexCol W "aps") := by
  rw [extractMetrics]
  simp only [List.lookup_append]
  have h1 : (metricBlock W "speed" "speed").lookup "fuel_usage" = none := by
    rw [metricBlock]
    split
    · rfl
    · rfl
  have h2 : (metricBlock W "aps" "fuel_usage").lookup "fuel_usage"
      = some (setIndexCol W "aps") := by
    rw [metricBlock, if_pos haps]
    exact List.lookup_cons_self
  rw [h1, h2]
  rfl

theorem process_fuel_series {W : WideTable} (hne : W.rows ≠ [])
    (haps : "aps" ∈ W.cols) (v : String) (l : Int) :
    seriesAt (((process_telemetry (.wide W) none none).1.lookup
      "fuel_usage").getD []) v l = lookupWide W v l "aps" := by
  have hP : process_telemetry (.wide W) none none = (extractMetrics W, W) := by
    show (if W.rows = [] then emptyTel
      else if filterWide W.rows none none = [] then emptyTel
      else (extractMetrics ⟨W.cols, filterWide W.rows none none⟩,
        (⟨W.cols, filterWide W.rows none none⟩ : WideTable)))
      = (extractMetrics W, W)
    rw [show filterWide W.rows none none = W.rows from rfl, if_neg hne,
      if_neg hne]
  rw [hP]
  dsimp only
  rw [lookup_fuel haps, Option.getD_some]
  exact seriesAt_setIndexCol W "aps" v l

/-- One-sample-per-key round-trip through the chunked aggregation and the
metric extraction: with pairwise-distinct `(vehicle_id, lap, channel)` keys in
the raw stream, every sample value survives aggregation exactly, and for the
accelerator channel `aps` the extracted `fuel_usage` metric reproduces it. -/
theorem aggregate_roundtrip (chunks : List (List TelRow))
    (hnd : ((chunks.flatten).map key3).Nodup) :
    ∀ r ∈ chunks.flatten, r.value ≠ none →
      lookupWide (aggregateChunks chunks) r.vid r.lap r.name = r.value ∧
      (r.name = "aps" →
        seriesAt (((process_telemetry (.wide (aggregateChunks chunks))
          none none).1.lookup "fuel_usage").getD []) r.vid r.lap = r.value) := by
  intro r hr hv
  have hperm := flatten_groupMean_keys_perm chunks hnd
  have hnd2 : (((chunks.map groupMeanLong).flatten).map key3).Nodup :=
    (hperm.nodup_iff).mpr hnd
  have hfr : (chunks.flatten).find? (fun x => decide (key3 x = key3 r)) = some r :=
    find?_key_of_mem key3 ((List.pairwise_map).mp hnd) hr
  have h3 : lookup3 (chunks.flatten) (key3 r) = some r.value := by
    rw [lookup3, hfr]
    rfl
  have h4 : lookup3 (groupMeanLong ((chunks.map groupMeanLong).flatten))
      (key3 r) = some r.value := by
    rw [lookup3_groupMeanLong hnd2, lookup3_flatten_groupMean chunks hnd, h3]
  rw [lookup3, Option.map_eq_some'] at h4
  obtain ⟨r', hfr', hval⟩ := h4
  have hr'mem := List.mem_of_find?_eq_some hfr'
  have hkey' : key3 r' = key3 r := by
    have := List.find?_some hfr'
    rwa [decide_eq_true_iff] at this
  have hnd3 : ((groupMeanLong
      ((chunks.map groupMeanLong).flatten)).map key3).Nodup :=
    groupMeanLong_keys_nodup _
  have hv' : r'.value ≠ none := by
    rw [hval]
    exact hv
  have hvid : r'.vid = r.vid := congrArg (fun p => p.1) hkey'
  have hlap : r'.lap = r.lap := congrArg (fun p => p.2.1) hkey'
  have hname : r'.name = r.name := congrArg (fun p => p.2.2) hkey'
  have hmain : lookupWide (aggregateChunks chunks) r.vid r.lap r.name
      = r.value := by
    have h5 := lookupWide_pivotMean hnd3 hr'mem hv'
    rw [hvid, hlap, hname, hval] at h5
    exact h5
  refine ⟨hmain, fun haps => ?_⟩
  have hapsmem : "aps" ∈ (aggregateChunks chunks).cols := by
    have := mem_pivotChannels hr'mem hv'
    rw [hname, haps] at this
    exact this
  have hrows : (aggregateChunks chunks).rows ≠ [] := by
    intro hnil
    have hlen : (aggregateChunks chunks).rows.length = (pivotKeys
        (groupMeanLong ((chunks.map groupMeanLong).flatten))).length :=
      List.length_map _ _
    rw [hnil] at hlen
    have hkeys : pivotKeys (groupMeanLong
        ((chunks.map groupMeanLong).flatten)) = [] :=
      List.length_eq_zero.mp hlen.symm
    have hk := mem_pivotKeys hr'mem
    rw [hkeys] at hk
    cases hk
  rw [process_fuel_series hrows hapsmem, ← haps, hmain]

/-- C7: aggregating a long-format table with exactly one sample per
`(vehicle_id, lap, channel)` (pairwise-distinct keys over every chunk of the
stream) and then extracting a metric through `process_telemetry` reproduces
each original sample value exactly; in particular, for channel `aps` with
values [40, 60] at (vehicle "7", lap 3), the aggregated wide value is 50 and
the `fuel_usage` metric series holds 50 at key ("7", 3). -/
theorem C7_aggregate_roundtrip :
    (∀ chunks : List (List TelRow), ((chunks.flatten).map key3).Nodup →
      ∀ r ∈ chunks.flatten, r.value ≠ none →
        lookupWide (aggregateChunks chunks) r.vid r.lap r.name = r.value ∧
        (r.name = "aps" →
          seriesAt (((process_telemetry (.wide (aggregateChunks chunks))
            none none).1.lookup "fuel_usage").getD []) r.vid r.lap
            = r.value)) ∧
    lookupWide (aggregateChunks [[⟨"7", 3, "aps", some 40⟩,
      ⟨"7", 3, "aps", some 60⟩]]) "7" 3 "aps" = some 50 ∧
    seriesAt (((process_telemetry (.wide (aggregateChunks [[⟨"7", 3, "aps",
      some 40⟩, ⟨"7", 3, "aps", some 60⟩]])) none none).1.lookup
      "fuel_usage").getD []) "7" 3 = some 50 :=
  ⟨aggregate_roundtrip, by with_unfolding_all decide,
    by with_unfolding_all decide⟩

/-- Witness for C7's general part at a concrete one-sample table. -/
theorem C7_witness :
    lookupWide (aggregateChunks [[⟨"7", 3, "aps", some 40⟩]]) "7" 3 "aps"
      = some 40 ∧
    seriesAt (((process_telemetry (.wide (aggregateChunks [[⟨"7", 3, "aps",
      some 40⟩]])) none none).1.lookup "fuel_usage").getD []) "7" 3
      = some 40 := by
  have h := C7_aggregate_roundtrip.1 [[⟨"7", 3, "aps", some 40⟩]] (by decide)
    ⟨"7", 3, "aps", some 40⟩ (by decide) (by decide)
  exact ⟨h.1, h.2 rfl⟩

/-- Witness for C6's general part at a concrete one-lap frame. -/
theorem C6_witness :
    (1 : ℚ) ∈ validVals (([⟨"1", some 1, some 1⟩] : List LRow).map
      (·.lap_time_s)) ∧
    ∀ w ∈ validVals (([⟨"1", some 1, some 1⟩] : List LRow).map
      (·.lap_time_s)), (1 : ℚ) ≤ w :=
  C6_best_lap.2.2 [⟨"1", some 1, some 1⟩] 1 (by with_unfolding_all decide)
